import Mathlib

/-!
Verification of the PDF-ingestion pipeline (`src/data_loader.py`) and the
line-delimited JSON validator (`src/imports.py`).

The Python code is shallowly embedded: pure string manipulation is translated
to executable Lean functions on `List Char` / `String`; the two external PDF
backends (pdfplumber, PyPDF2) are modelled as behaviours recording the pages
they yield before a possible failure; Python dictionaries that the claims
inspect for key presence are modelled as association lists built in the same
insertion order as the code.
-/

namespace PdfPipeline

/-- Whitespace as Python treats it for `str.strip`, `str.split` and the regex
class `\s` on `str` arguments: the ASCII range 0x09-0x0D, space, the
information separators 0x1C-0x1F, NEL 0x85, NBSP 0xA0 and the Unicode space
code points. -/
def isPySpace (c : Char) : Bool :=
  decide ((0x09 ≤ c.toNat ∧ c.toNat ≤ 0x0d) ∨ c.toNat = 0x20 ∨
    (0x1c ≤ c.toNat ∧ c.toNat ≤ 0x1f) ∨ c.toNat = 0x85 ∨ c.toNat = 0xa0 ∨
    c.toNat = 0x1680 ∨ (0x2000 ≤ c.toNat ∧ c.toNat ≤ 0x200a) ∨
    c.toNat = 0x2028 ∨ c.toNat = 0x2029 ∨ c.toNat = 0x202f ∨
    c.toNat = 0x205f ∨ c.toNat = 0x3000)

/-- The code-point ranges deleted by `basic_cleaning`'s third substitution:
the character class `[\x00-\x08\x0b-\x0c\x0e-\x1f\x7f-\x9f]`. -/
def inCtrlStrip (c : Char) : Bool :=
  decide (c.toNat ≤ 0x08 ∨ c.toNat = 0x0b ∨ c.toNat = 0x0c ∨
    (0x0e ≤ c.toNat ∧ c.toNat ≤ 0x1f) ∨ (0x7f ≤ c.toNat ∧ c.toNat ≤ 0x9f))

/-- Whether a character list begins with a Python-whitespace character. -/
def headIsWS : List Char → Bool
  | [] => false
  | c :: _ => isPySpace c

/-- The substitution `re.sub(r'\s+', ' ', text)`: every maximal run of
whitespace becomes a single space.  Of a run of length k the first k-1
characters are absorbed and the last one emits the replacement space. -/
def collapseWS : List Char → List Char
  | [] => []
  | c :: rest =>
    if isPySpace c then
      if headIsWS rest then collapseWS rest else ' ' :: collapseWS rest
    else c :: collapseWS rest

/-- Replacement text for a flushed run of k pending newlines under
`re.sub(r'\n{3,}', '\n\n', text)`: runs of three or more collapse to two,
shorter runs are kept verbatim. -/
def emitNL (k : Nat) : List Char :=
  if 3 ≤ k then ['\n', '\n'] else List.replicate k '\n'

/-- Loop of the newline-collapsing substitution; `k` counts the newline run
currently pending. -/
def collapseNLAux : List Char → Nat → List Char
  | [], k => emitNL k
  | c :: rest, k =>
    if c = '\n' then collapseNLAux rest (k + 1)
    else emitNL k ++ c :: collapseNLAux rest 0

/-- The substitution `re.sub(r'\n{3,}', '\n\n', text)`. -/
def collapseNL (l : List Char) : List Char := collapseNLAux l 0

/-- The substitution deleting the control-character class of
`basic_cleaning`. -/
def removeCtrl (l : List Char) : List Char := l.filter (fun c => !inCtrlStrip c)

/-- `str.strip()` on a character list: drop Python whitespace from both
ends. -/
def pyStripChars (l : List Char) : List Char :=
  ((l.dropWhile isPySpace).reverse.dropWhile isPySpace).reverse

/-- `str.strip()`. -/
def pyStripStr (s : String) : String := ⟨pyStripChars s.toList⟩

/-- `PDFTextExtractor.basic_cleaning`: collapse whitespace runs to one space,
collapse runs of three or more newlines to two, delete the control-character
ranges, then strip — in exactly that order. -/
def basic_cleaning (s : String) : String :=
  ⟨pyStripChars (removeCtrl (collapseNL (collapseWS s.toList)))⟩

/-- Word splitter of `str.split()` (no separator): maximal non-whitespace
runs, with no empty fields.  `cur` holds the current field reversed. -/
def splitWSAux : List Char → List Char → List (List Char)
  | [], cur => if cur.isEmpty then [] else [cur.reverse]
  | c :: rest, cur =>
    if isPySpace c then
      if cur.isEmpty then splitWSAux rest [] else cur.reverse :: splitWSAux rest []
    else splitWSAux rest (c :: cur)

/-- `text.split()`: whitespace-delimited tokens. -/
def pySplitWords (s : String) : List (List Char) := splitWSAux s.toList []

/-- Splitter of `str.split('\n')`: fields between newline separators,
empty fields kept. -/
def splitNLAux : List Char → List Char → List (List Char)
  | [], cur => [cur.reverse]
  | c :: rest, cur =>
    if c = '\n' then cur.reverse :: splitNLAux rest []
    else splitNLAux rest (c :: cur)

/-- `text.split('\n')`. -/
def pySplitLines (s : String) : List (List Char) := splitNLAux s.toList []

/-- Whether `needle` occurs at the very start of `hay` (code-point
comparison). -/
def matchAt : List Char → List Char → Bool
  | [], _ => true
  | _ :: _, [] => false
  | c :: cs, d :: ds => c == d && matchAt cs ds

/-- Python's substring test `needle in hay`; the empty needle is contained in
every string. -/
def hasSub : List Char → List Char → Bool
  | [], needle => needle.isEmpty
  | c :: t, needle => matchAt needle (c :: t) || hasSub t needle

/-- Case-insensitive containment as used on filenames: the filename is
lowercased (`pdf_path.name.lower()`) and tested against the lowercase keyword
literal. -/
def containsKw (filename kw : String) : Bool :=
  hasSub (filename.toList.map Char.toLower) kw.toList

/-- `any(x in filename_lower for x in kws)`. -/
def anyKw (filename : String) (kws : List String) : Bool :=
  kws.any (containsKw filename)

/-- Keyword set of the first classification branch. -/
def consultingKws : List String := ["mckinsey", "bain", "bcg", "pwc", "deloitte"]

/-- Keyword set of the second classification branch; "standford" is the
literal (misspelled) keyword of the source. -/
def academicKws : List String := ["mit", "standford", "harvard"]

/-- Keyword set of the third classification branch. -/
def industryKws : List String := ["google", "microsoft", "openai"]

/-- Keyword set of the fourth classification branch. -/
def policyKws : List String := ["wef", "oecd", "undp", "iti"]

/-- The `source_type` cascade inlined at the end of
`PDFTextExtractor.extract_metadata`: four `elif` branches in priority order,
first match wins, `"Unknown"` otherwise. -/
def detect_source_type (filename : String) : String :=
  if anyKw filename consultingKws then ("Consulting")
  else if anyKw filename academicKws then ("Academic")
  else if anyKw filename industryKws then ("Industry")
  else if anyKw filename policyKws then ("Policy")
  else ("Unknown")

/-- Behaviour of the pdfplumber backend on one file: the per-page results of
`page.extract_text()` yielded before a possible failure, and whether a
failure is then raised.  A failure at `pdfplumber.open` is the behaviour with
no pages and `fails = true`. -/
structure PlumberBehavior where
  pages : List (Option String)
  fails : Bool
deriving DecidableEq

/-- Behaviour of the PyPDF2 backend on one file, analogously; PyPDF2's
`page.extract_text()` always returns a string. -/
structure Pypdf2Behavior where
  pages : List String
  fails : Bool
deriving DecidableEq

/-- Outcome of a `try` block: normal completion, or an exception raised with
the local `text` variable holding the pages accumulated so far. -/
inductive TryOutcome where
  | ok (text : String)
  | exn (sofar : String)
deriving DecidableEq

/-- The accumulation loop of `extract_with_pdfplumber`: append
`page_text + "\n"` for each page whose `page.extract_text()` is truthy
(neither `None` nor empty). -/
def plumberAccum (pages : List (Option String)) : String :=
  pages.foldl
    (fun acc p => match p with
      | some t => if t = "" then acc else acc ++ t ++ "\n"
      | none => acc) ""

/-- The accumulation loop of `extract_with_pypdf2`: append
`page.extract_text() + "\n"` for every page, with no emptiness check. -/
def pypdf2Accum (pages : List String) : String :=
  pages.foldl (fun acc t => acc ++ t ++ "\n") ""

/-- The `try` body of `extract_with_pdfplumber`. -/
def plumberBody (b : PlumberBehavior) : TryOutcome :=
  if b.fails then .exn (plumberAccum b.pages) else .ok (plumberAccum b.pages)

/-- The `try` body of `extract_with_pypdf2`. -/
def pypdf2Body (b : Pypdf2Behavior) : TryOutcome :=
  if b.fails then .exn (pypdf2Accum b.pages) else .ok (pypdf2Accum b.pages)

/-- `PDFTextExtractor.extract_with_pdfplumber`: the `except` clause prints a
warning and falls through to `return text`, so the accumulated text is
returned on both paths. -/
def extract_with_pdfplumber (b : PlumberBehavior) : String :=
  match plumberBody b with
  | .ok t => t
  | .exn t => t

/-- `PDFTextExtractor.extract_with_pypdf2`, with the same shape. -/
def extract_with_pypdf2 (b : Pypdf2Behavior) : String :=
  match pypdf2Body b with
  | .ok t => t
  | .exn t => t

/-- One PDF file as the two backends see it. -/
structure PDFFile where
  plumber : PlumberBehavior
  pypdf2 : Pypdf2Behavior
deriving DecidableEq

/-- `PDFTextExtractor.extract_text`: method `"pdfplumber"` (the default) runs
pdfplumber and, when the result strips to empty, falls back to PyPDF2 once;
any other method string runs PyPDF2 directly.  The chosen raw text then goes
through `basic_cleaning`. -/
def extract_text (pdf : PDFFile) (method : String := "pdfplumber") : String :=
  let text :=
    if method = "pdfplumber" then
      let t := extract_with_pdfplumber pdf.plumber
      if pyStripStr t = "" then extract_with_pypdf2 pdf.pypdf2 else t
    else extract_with_pypdf2 pdf.pypdf2
  basic_cleaning text

/-- Values stored in a metadata dictionary: strings, integer counts, and the
rounded megabyte size (an exact rational standing for the Python float). -/
inductive MetaVal where
  | s (v : String)
  | n (v : Nat)
  | q (v : ℚ)
deriving DecidableEq

/-- A metadata dictionary as an association list in insertion order: the keys
built by `extract_metadata` are pairwise distinct, so this models the Python
dict faithfully for lookup and key presence. -/
abbrev Metadata : Type := List (String × MetaVal)

/-- First-match association lookup, the dict read `m[k]` as an `Option`. -/
def alookup (m : Metadata) (k : String) : Option MetaVal :=
  match m with
  | [] => none
  | (k', v) :: rest => if k' = k then some v else alookup rest k

/-- Round half to even at integer precision, the tie rule of Python's
`round`. -/
def roundHalfEven (x : ℚ) : ℤ :=
  let f := ⌊x⌋
  let r := x - f
  if r < 1 / 2 then f else if 1 / 2 < r then f + 1
  else if f % 2 = 0 then f else f + 1

/-- `round(bytes / (1024 * 1024), 2)` computed on exact rationals; the
binary-float representation detail of the Python value is immaterial to every
claim, which test only the key's presence. -/
def file_size_mb (bytes : Nat) : ℚ := (roundHalfEven ((bytes : ℚ) / (1024 * 1024) * 100) : ℚ) / 100

/-- The document properties PyPDF2 reports when reopening succeeds:
`len(pdf_reader.pages)`, whether `pdf_reader.metadata` is truthy, and the
four descriptive fields as `pdf_meta.get` returns them (already defaulted to
`""` when the key is absent). -/
structure PdfInternalMeta where
  pageCount : Nat
  hasMeta : Bool
  title : String
  author : String
  subject : String
  creator : String
deriving DecidableEq

/-- One input file of the corpus processor: its filename, its stat size, the
clock reading `datetime.now().isoformat()` at its processing time, the two
backend behaviours, and the outcome of reopening it for internal metadata. -/
structure PdfInput where
  name : String
  sizeBytes : Nat
  now : String
  file : PDFFile
  internal : Except Unit PdfInternalMeta

/-- Position of the last '.' in a list, if any. -/
def lastDotIdx (l : List Char) : Option Nat :=
  match l with
  | [] => none
  | c :: rest =>
    match lastDotIdx rest with
    | some i => some (i + 1)
    | none => if c = '.' then some 0 else none

/-- `pathlib.PurePath.stem`: the name without its last suffix; a dot that is
the first or the last character does not start a suffix. -/
def stemOf (name : String) : String :=
  let cs := name.toList
  match lastDotIdx cs with
  | none => name
  | some i => if 0 < i ∧ i < cs.length - 1 then ⟨cs.take i⟩ else name

/-- `PDFTextExtractor.extract_metadata`.  The base dict always carries the
six text-derived keys; the `try` block adds `page_count` and — only when
`pdf_reader.metadata` is truthy — the four descriptive keys, while the
`except` clause sets `page_count = 0` and adds nothing else; `source_type`
is appended last.  On the failure path the descriptive keys are therefore
absent from the dict. -/
def extract_metadata (f : PdfInput) (text : String) : Metadata :=
  let base : Metadata :=
    [("filename", .s f.name),
     ("file_size_mb", .q (file_size_mb f.sizeBytes)),
     ("extraction_date", .s f.now),
     ("char_count", .n text.length),
     ("word_count", .n (pySplitWords text).length),
     ("line_count", .n (pySplitLines text).length)]
  let withPdf : Metadata :=
    match f.internal with
    | .ok im =>
      let m1 := base ++ [("page_count", .n im.pageCount)]
      if im.hasMeta then
        m1 ++ [("title", .s im.title), ("author", .s im.author),
               ("subject", .s im.subject), ("creator", .s im.creator)]
      else m1
    | .error _ => base ++ [("page_count", .n 0)]
  withPdf ++ [("source_type", .s (detect_source_type f.name))]

/-- Observable console events of `process_all_pdfs`. -/
inductive Ev where
  | errNoPdfFound
  | processing (name : String)
  | warnNoText (name : String)
  | extractedOk (name : String)
deriving DecidableEq

/-- The per-file loop of `process_all_pdfs`: extract with the default method,
skip the file when the cleaned text strips to empty, otherwise insert the
text and the metadata under the filename stem in both mappings. -/
def processLoop : List PdfInput →
    List (String × String) × List (String × Metadata) × List Ev
  | [] => ([], [], [])
  | f :: rest =>
    let text := extract_text f.file ("pdfplumber")
    let r := processLoop rest
    if pyStripStr text = "" then
      (r.1, r.2.1, Ev.processing f.name :: Ev.warnNoText f.name :: r.2.2)
    else
      ((stemOf f.name, text) :: r.1,
       (stemOf f.name, extract_metadata f text) :: r.2.1,
       Ev.processing f.name :: Ev.extractedOk f.name :: r.2.2)

/-- `PDFTextExtractor.process_all_pdfs`: the `if not pdf_files:` guard prints
an error and returns two empty dicts; otherwise it runs the loop. -/
def process_all_pdfs : List PdfInput →
    List (String × String) × List (String × Metadata) × List Ev
  | [] => ([], [], [Ev.errNoPdfFound])
  | f :: rest => processLoop (f :: rest)

/-- Read of `meta['word_count']`-style integer fields.  Every metadata dict
built by `extract_metadata` defines these keys, so the fallback 0 standing
for Python's `KeyError` is never exercised by pipeline-produced input. -/
def getNat (m : Metadata) (k : String) : Nat :=
  match alookup m k with
  | some (.n v) => v
  | _ => 0

/-- Read of `meta['source_type']`-style string fields, with the same
remark. -/
def getStr (m : Metadata) (k : String) : String :=
  match alookup m k with
  | some (.s v) => v
  | _ => ""

/-- Dict tally update `source_types[stype] = source_types.get(stype, 0) + 1`:
an existing key keeps its position, a new key is appended. -/
def bump : List (String × Nat) → String → List (String × Nat)
  | [], k => [(k, 1)]
  | (k', v) :: rest, k =>
    if k' = k then (k', v + 1) :: rest else (k', v) :: bump rest k

/-- Code-point lexicographic order on character lists, Python's `<=` on
strings over the values compared here. -/
def listLe : List Char → List Char → Bool
  | [], _ => true
  | _ :: _, [] => false
  | a :: as, b :: bs =>
    if a.toNat = b.toNat then listLe as bs else decide (a.toNat < b.toNat)

/-- Python string order on the keys being sorted. -/
def strLeB (a b : String) : Bool := listLe a.toList b.toList

/-- Insert one pair into a key-sorted list. -/
def insSorted (x : String × Nat) : List (String × Nat) → List (String × Nat)
  | [] => [x]
  | y :: rest =>
    if strLeB x.1 y.1 then x :: y :: rest else y :: insSorted x rest

/-- `sorted(source_types.items())`: the keys are pairwise distinct, so the
tuple order reduces to key order; realized as insertion sort. -/
def sortPairs (l : List (String × Nat)) : List (String × Nat) :=
  l.foldr insSorted []

/-- Whether a pair list is sorted by key. -/
def sortedByKey : List (String × Nat) → Bool
  | [] => true
  | [_] => true
  | a :: b :: rest => strLeB a.1 b.1 && sortedByKey (b :: rest)

/-- The figures and orderings of `generate_extraction_report`; the fixed
plain-text banners around them are cosmetic (spec §4.5) and are not
modelled. -/
structure Report where
  total_docs : Nat
  total_words : Nat
  total_pages : Nat
  avg_words : Nat
  histogram : List (String × Nat)
  details : List (String × Nat × Nat × String)
deriving DecidableEq

/-- `PDFTextExtractor.generate_extraction_report`: totals summed over the
metadata dict, average as floor division guarded by `total_docs > 0`, the
source-type histogram built in insertion order then rendered sorted, and the
per-document detail lines in insertion order. -/
def generate_extraction_report (texts : List (String × String))
    (metas : List (String × Metadata)) : Report :=
  let total_docs := texts.length
  let total_words := (metas.map (fun p => getNat p.2 ("word_count"))).sum
  let total_pages := (metas.map (fun p => getNat p.2 ("page_count"))).sum
  let source_types :=
    metas.foldl (fun acc p => bump acc (getStr p.2 ("source_type"))) []
  { total_docs := total_docs
    total_words := total_words
    total_pages := total_pages
    avg_words := if 0 < total_docs then total_words / total_docs else 0
    histogram := sortPairs source_types
    details := metas.map (fun p =>
      (getStr p.2 ("filename"), getNat p.2 ("word_count"),
       getNat p.2 ("page_count"), getStr p.2 ("source_type"))) }

/-- Outcome reported by the JSONL validator. -/
inductive JsonlResult where
  | failAt (lineNo : Nat) (err : String)
  | okAll
deriving DecidableEq

/-- The `enumerate(f, 1)` loop of `validate_jsonl`, with `i` the 1-based
number of the next line; `json.loads` is the external decoder, abstracted as
`parse`. -/
def validateFrom (parse : String → Except String Unit) :
    Nat → List String → JsonlResult
  | _, [] => .okAll
  | i, line :: rest =>
    match parse line with
    | .ok _ => validateFrom parse (i + 1) rest
    | .error e => .failAt i e

/-- `validate_jsonl` of `src/imports.py`: parse each line in order, report
the first failure with its 1-based line number and the decoder's message and
return; report success once after the loop ends. -/
def validate_jsonl (parse : String → Except String Unit)
    (lines : List String) : JsonlResult :=
  validateFrom parse 1 lines

/-- No two adjacent characters are both Python whitespace: "no run of
whitespace longer than one character". -/
def noAdjWS : List Char → Bool
  | [] => true
  | [_] => true
  | a :: b :: rest => !(isPySpace a && isPySpace b) && noAdjWS (b :: rest)

/-- Every whitespace character of the list is the plain space. -/
def wsOnlySpace (l : List Char) : Bool :=
  l.all (fun c => !isPySpace c || c == ' ')

/-- The list contains no newline. -/
def noNLb (l : List Char) : Bool := l.all (fun c => !(c == '\n'))

/-- Propositional form of the adjacency condition, for transport through
`List.Chain'`. -/
def adjOK (a b : Char) : Prop := (!(isPySpace a && isPySpace b)) = true

/-- The skip test of the `process_all_pdfs` loop: a file is kept when its
cleaned default-method extraction does not strip to empty. -/
def keepFile (f : PdfInput) : Bool :=
  !(pyStripStr (extract_text f.file ("pdfplumber")) == "")

/-- Concrete file whose pdfplumber behaviour yields no text while PyPDF2
yields a page, exercising the fallback branch. -/
def pdfW : PDFFile := ⟨⟨[none], false⟩, ⟨["fallback"], false⟩⟩

/-- Concrete input whose metadata reopen fails. -/
def exF : PdfInput :=
  ⟨"broken.pdf", 1000, "2024-01-01T00:00:00", ⟨⟨[], true⟩, ⟨[], true⟩⟩,
   .error ()⟩

/-- Concrete JSON decoder standing for `json.loads` in witnesses: it rejects
exactly the line "NOT JSON". -/
def parseW (s : String) : Except String Unit :=
  if s = "NOT JSON" then .error "Expecting value" else .ok ()

/-- Minimal metadata dict carrying the fields the report reads. -/
def wMetaDoc (name : String) (wc pc : Nat) (st : String) : Metadata :=
  [("filename", .s name), ("word_count", .n wc), ("page_count", .n pc),
   ("source_type", .s st)]

/-- Three-document text mapping of the spec's report example. -/
def wTexts : List (String × String) := [("d1", "t1"), ("d2", "t2"), ("d3", "t3")]

/-- Three-document metadata mapping with word counts 100, 200, 300. -/
def wMetas : List (String × Metadata) :=
  [("d1", wMetaDoc ("a.pdf") 100 10 ("Policy")),
   ("d2", wMetaDoc ("b.pdf") 200 20 ("Academic")),
   ("d3", wMetaDoc ("c.pdf") 300 5 ("Unknown"))]

/-! ### Lemmas about the cleaning pipeline -/

theorem noAdjWS_cons_eq (a : Char) (m : List Char) :
    noAdjWS (a :: m) = (!(isPySpace a && headIsWS m) && noAdjWS m) := by
  cases m <;> simp [noAdjWS, headIsWS]

theorem headIsWS_collapseWS (l : List Char) (h : headIsWS l = false) :
    headIsWS (collapseWS l) = false := by
  cases l with
  | nil => rfl
  | cons c t =>
    simp only [headIsWS] at h
    simp [collapseWS, h, headIsWS]

theorem noAdjWS_collapseWS (l : List Char) : noAdjWS (collapseWS l) = true := by
  induction l with
  | nil => rfl
  | cons c rest ih =>
    by_cases hc : isPySpace c = true
    · by_cases hh : headIsWS rest = true
      · simpa [collapseWS, hc, hh] using ih
      · have hh' : headIsWS rest = false := by
          simpa using hh
        have h2 := headIsWS_collapseWS rest hh'
        simp [collapseWS, hc, hh', noAdjWS_cons_eq, h2, ih]
    · have hc' : isPySpace c = false := by
        simpa using hc
      simp [collapseWS, hc', noAdjWS_cons_eq, ih]

theorem wsOnlySpace_collapseWS (l : List Char) :
    wsOnlySpace (collapseWS l) = true := by
  induction l with
  | nil => rfl
  | cons c rest ih =>
    by_cases hc : isPySpace c = true
    · by_cases hh : headIsWS rest = true
      · simpa [collapseWS, hc, hh] using ih
      · have hh' : headIsWS rest = false := by
          simpa using hh
        simpa [collapseWS, hc, hh', wsOnlySpace] using ih
    · have hc' : isPySpace c = false := by
        simpa using hc
      simpa [collapseWS, hc', wsOnlySpace] using ih

theorem mem_collapseWS (l : List Char) : ∀ x ∈ collapseWS l, x ∈ l ∨ x = ' ' := by
  induction l with
  | nil => simp [collapseWS]
  | cons c rest ih =>
    intro x hx
    by_cases hc : isPySpace c = true
    · by_cases hh : headIsWS rest = true
      · simp only [collapseWS, hc, hh, if_true] at hx
        rcases ih x hx with h | h
        · exact Or.inl (List.mem_cons_of_mem c h)
        · exact Or.inr h
      · have hh' : headIsWS rest = false := by
          simpa using hh
        simp only [collapseWS, hc, hh', if_true, Bool.false_eq_true, if_false,
          List.mem_cons] at hx
        rcases hx with h | h
        · exact Or.inr h
        · rcases ih x h with h2 | h2
          · exact Or.inl (List.mem_cons_of_mem c h2)
          · exact Or.inr h2
    · have hc' : isPySpace c = false := by
        simpa using hc
      simp only [collapseWS, hc', Bool.false_eq_true, if_false,
        List.mem_cons] at hx
      rcases hx with h | h
      · exact Or.inl (by simp [h])
      · rcases ih x h with h2 | h2
        · exact Or.inl (List.mem_cons_of_mem c h2)
        · exact Or.inr h2

theorem noNLb_of_wsOnly (l : List Char) (h : wsOnlySpace l = true) :
    noNLb l = true := by
  rw [noNLb, List.all_eq_true]
  intro c hc
  rw [wsOnlySpace, List.all_eq_true] at h
  have hcc := h c hc
  by_cases hcn : c = '\n'
  · subst hcn
    exact absurd hcc (by decide)
  · simp [hcn]

theorem collapseNLAux_id (l : List Char) (h : noNLb l = true) :
    collapseNLAux l 0 = l := by
  induction l with
  | nil => rfl
  | cons c rest ih =>
    rw [noNLb, List.all_cons, Bool.and_eq_true] at h
    have hc : ¬(c = '\n') := by
      simpa using h.1
    have hr := ih (by rw [noNLb]; exact h.2)
    simp [collapseNLAux, hc, emitNL, hr]

theorem filter_id_of_all (p : Char → Bool) (l : List Char)
    (h : ∀ c ∈ l, p c = true) : l.filter p = l := by
  induction l with
  | nil => rfl
  | cons c t ih =>
    rw [List.filter_cons]
    simp only [h c (by simp), if_true]
    rw [ih (fun x hx => h x (by simp [hx]))]

theorem noAdjWS_tail (a : Char) (m : List Char) (h : noAdjWS (a :: m) = true) :
    noAdjWS m = true := by
  rw [noAdjWS_cons_eq, Bool.and_eq_true] at h
  exact h.2

theorem noAdjWS_dropWhile (p : Char → Bool) (l : List Char)
    (h : noAdjWS l = true) : noAdjWS (l.dropWhile p) = true := by
  induction l with
  | nil => simpa using h
  | cons c t ih =>
    rw [List.dropWhile_cons]
    by_cases hc : p c = true
    · simp only [hc, if_true]
      exact ih (noAdjWS_tail _ _ h)
    · simp only [hc, if_false]
      exact h

theorem noAdjWS_iff_chain (l : List Char) :
    noAdjWS l = true ↔ List.Chain' adjOK l := by
  induction l with
  | nil => simp [noAdjWS]
  | cons a t ih =>
    cases t with
    | nil => simp [noAdjWS, List.chain'_singleton]
    | cons b t2 =>
      rw [List.chain'_cons]
      have : noAdjWS (a :: b :: t2) =
          ((!(isPySpace a && isPySpace b)) && noAdjWS (b :: t2)) := rfl
      rw [this, Bool.and_eq_true]
      exact and_congr Iff.rfl ih

theorem adjOK_symm (a b : Char) (h : adjOK a b) : adjOK b a := by
  simpa [adjOK, Bool.and_comm] using h

theorem noAdjWS_reverse (l : List Char) (h : noAdjWS l = true) :
    noAdjWS l.reverse = true := by
  rw [noAdjWS_iff_chain] at h ⊢
  rw [List.chain'_reverse]
  exact h.imp (fun a b hab => adjOK_symm a b hab)

theorem noAdjWS_pyStrip (l : List Char) (h : noAdjWS l = true) :
    noAdjWS (pyStripChars l) = true := by
  unfold pyStripChars
  exact noAdjWS_reverse _ (noAdjWS_dropWhile _ _ (noAdjWS_reverse _
    (noAdjWS_dropWhile _ _ h)))

theorem headIsWS_dropWhile_ws (l : List Char) :
    headIsWS (l.dropWhile isPySpace) = false := by
  induction l with
  | nil => rfl
  | cons c t ih =>
    rw [List.dropWhile_cons]
    by_cases hc : isPySpace c = true
    · simpa [hc] using ih
    · have hc' : isPySpace c = false := by
        simpa using hc
      simp [hc', headIsWS]

theorem dropWhile_suffix_ex (p : Char → Bool) (l : List Char) :
    ∃ t, t ++ l.dropWhile p = l := by
  induction l with
  | nil => exact ⟨[], rfl⟩
  | cons c r ih =>
    rw [List.dropWhile_cons]
    by_cases hc : p c = true
    · obtain ⟨t, ht⟩ := ih
      exact ⟨c :: t, by simp [hc, ht]⟩
    · exact ⟨[], by simp [hc]⟩

theorem headIsWS_of_extends (m p t : List Char) (hp : p ++ t = m)
    (h : headIsWS m = false) : headIsWS p = false := by
  cases p with
  | nil => rfl
  | cons a q =>
    subst hp
    simpa [headIsWS] using h

theorem mem_of_dropWhile (p : Char → Bool) (l : List Char) (x : Char)
    (hx : x ∈ l.dropWhile p) : x ∈ l := by
  obtain ⟨t, ht⟩ := dropWhile_suffix_ex p l
  rw [← ht]
  exact List.mem_append.mpr (Or.inr hx)

theorem mem_pyStrip (l : List Char) (x : Char) (hx : x ∈ pyStripChars l) :
    x ∈ l := by
  unfold pyStripChars at hx
  rw [List.mem_reverse] at hx
  have h1 := mem_of_dropWhile _ _ _ hx
  rw [List.mem_reverse] at h1
  exact mem_of_dropWhile _ _ _ h1

theorem stripEdge_left (l : List Char) : headIsWS (pyStripChars l) = false := by
  unfold pyStripChars
  have hhead : headIsWS (l.dropWhile isPySpace) = false := headIsWS_dropWhile_ws l
  obtain ⟨t, ht⟩ := dropWhile_suffix_ex isPySpace (l.dropWhile isPySpace).reverse
  have ht2 : ((l.dropWhile isPySpace).reverse.dropWhile isPySpace).reverse
      ++ t.reverse = l.dropWhile isPySpace := by
    have hr := congrArg List.reverse ht
    simpa [List.reverse_append] using hr
  exact headIsWS_of_extends _ _ _ ht2 hhead

theorem stripEdge_right (l : List Char) :
    headIsWS (pyStripChars l).reverse = false := by
  unfold pyStripChars
  rw [List.reverse_reverse]
  exact headIsWS_dropWhile_ws _

theorem noCtrl_clean (s : String) :
    ((basic_cleaning s).toList.all fun c => !inCtrlStrip c) = true := by
  rw [List.all_eq_true]
  intro c hc
  have hl : (basic_cleaning s).toList =
      pyStripChars (removeCtrl (collapseNL (collapseWS s.toList))) := rfl
  rw [hl] at hc
  have h1 := mem_pyStrip _ _ hc
  rw [removeCtrl, List.mem_filter] at h1
  exact h1.2

/-! ### Claim theorems -/

/-- C4 (amended): `basic_cleaning` applies, in order, the full whitespace
collapse, the 3+-newline collapse, the control-character deletion and the
trim; for every input its output contains no character of the stripped
control ranges and no leading or trailing whitespace, and for every input
containing no character of the stripped control ranges the output contains
no run of whitespace longer than one character.  (Unconditionally the last
part fails: deleting a control character can merge two single spaces, see
the counterexample.) -/
theorem basic_cleaning_invariants (s : String) :
    basic_cleaning s =
      ⟨pyStripChars (removeCtrl (collapseNL (collapseWS s.toList)))⟩ ∧
    ((basic_cleaning s).toList.all fun c => !inCtrlStrip c) = true ∧
    headIsWS (basic_cleaning s).toList = false ∧
    headIsWS (basic_cleaning s).toList.reverse = false ∧
    ((s.toList.all fun c => !inCtrlStrip c) = true →
      noAdjWS (basic_cleaning s).toList = true) := by
  refine ⟨rfl, noCtrl_clean s, stripEdge_left _, stripEdge_right _, ?_⟩
  intro h
  have hadj := noAdjWS_collapseWS s.toList
  have hws := wsOnlySpace_collapseWS s.toList
  have hnl := noNLb_of_wsOnly _ hws
  have hcoll : collapseNL (collapseWS s.toList) = collapseWS s.toList :=
    collapseNLAux_id _ hnl
  have hctrl : ∀ c ∈ collapseWS s.toList, (!inCtrlStrip c) = true := by
    intro c hcmem
    rcases mem_collapseWS s.toList c hcmem with hin | hsp
    · rw [List.all_eq_true] at h
      exact h c hin
    · subst hsp
      decide
  have hfil : removeCtrl (collapseWS s.toList) = collapseWS s.toList :=
    filter_id_of_all _ _ hctrl
  show noAdjWS (pyStripChars (removeCtrl (collapseNL (collapseWS s.toList)))) = true
  rw [hcoll, removeCtrl] at *
  rw [hfil]
  exact noAdjWS_pyStrip _ hadj

/-- C4 witness: the spec's test input — five consecutive newlines and four
consecutive spaces, no control characters — cleans to a string with no
whitespace run longer than one character. -/
theorem basic_cleaning_invariants_witness :
    noAdjWS (basic_cleaning "one\n\n\n\n\ntwo    three").toList = true :=
  (basic_cleaning_invariants "one\n\n\n\n\ntwo    three").2.2.2.2 (by decide)

/-- C4 counterexample: on the input "a \x00 b" the whitespace collapse leaves
the two single spaces around the NUL, the control-character deletion then
removes the NUL and merges them, so the cleaned output "a  b" contains a
whitespace run of length two — refuting the unconditional no-long-run
claim. -/
theorem basic_cleaning_run_cex :
    basic_cleaning "a \x00 b" = "a  b" ∧
    noAdjWS (basic_cleaning "a \x00 b").toList = false := by
  constructor
  · decide
  · decide

/-- C2: with the default method, `extract_text` first runs the pdfplumber
strategy; exactly when that result is empty or whitespace-only the stored
result is the PyPDF2 strategy's output after cleaning, and otherwise it is
the pdfplumber output after cleaning — so the fallback happens at most once
and its result is final. -/
theorem extract_text_default_fallback (pdf : PDFFile) :
    (pyStripStr (extract_with_pdfplumber pdf.plumber) = "" →
      extract_text pdf ("pdfplumber") =
        basic_cleaning (extract_with_pypdf2 pdf.pypdf2)) ∧
    (pyStripStr (extract_with_pdfplumber pdf.plumber) ≠ "" →
      extract_text pdf ("pdfplumber") =
        basic_cleaning (extract_with_pdfplumber pdf.plumber)) := by
  unfold extract_text
  constructor
  · intro h
    simp [h]
  · intro h
    simp [h]

/-- C2 witness: a file whose pdfplumber behaviour yields no text falls back
to PyPDF2 and stores that strategy's cleaned output. -/
theorem extract_text_default_fallback_witness :
    extract_text pdfW ("pdfplumber") =
      basic_cleaning (extract_with_pypdf2 pdfW.pypdf2) :=
  (extract_text_default_fallback pdfW).1 (by decide)

/-- C10: for every method string other than "pdfplumber" (such as "pypdf2"
or any invalid value), `extract_text` uses only the PyPDF2 strategy — with
cleaning still applied — and never falls back to pdfplumber even when the
PyPDF2 result is empty. -/
theorem extract_text_other_method (pdf : PDFFile) (method : String)
    (h : method ≠ "pdfplumber") :
    extract_text pdf method = basic_cleaning (extract_with_pypdf2 pdf.pypdf2) := by
  unfold extract_text
  simp [h]

/-- C10 witness: method "pypdf2" on a file whose PyPDF2 behaviour yields
nothing returns the cleaned empty extraction without consulting
pdfplumber. -/
theorem extract_text_other_method_witness :
    extract_text ⟨⟨[some ("Hello")], false⟩, ⟨[], false⟩⟩ ("pypdf2") =
      basic_cleaning (extract_with_pypdf2 ⟨[], false⟩) :=
  extract_text_other_method ⟨⟨[some ("Hello")], false⟩, ⟨[], false⟩⟩ ("pypdf2")
    (by decide)

/-- C5 (amended): each strategy catches every failure raised by the backend
and returns the text accumulated up to the failure point — the empty string
when the failure precedes any page — rather than propagating it; in all
cases, failing or not, the strategy returns the accumulated text, so
extraction for one file never raises out of the strategy. -/
theorem strategies_catch_failures (pb : PlumberBehavior) (qb : Pypdf2Behavior) :
    (pb.fails = true → plumberBody pb = .exn (plumberAccum pb.pages)) ∧
    extract_with_pdfplumber pb = plumberAccum pb.pages ∧
    (qb.fails = true → pypdf2Body qb = .exn (pypdf2Accum qb.pages)) ∧
    extract_with_pypdf2 qb = pypdf2Accum qb.pages := by
  refine ⟨fun h => ?_, ?_, fun h => ?_, ?_⟩
  · simp [plumberBody, h]
  · cases hf : pb.fails <;>
      simp [extract_with_pdfplumber, plumberBody, hf]
  · simp [pypdf2Body, h]
  · cases hf : qb.fails <;>
      simp [extract_with_pypdf2, pypdf2Body, hf]

/-- C5 witness: behaviours that raise after yielding a page still make the
`try` body raise with the accumulated text, which the strategy returns. -/
theorem strategies_catch_failures_witness :
    plumberBody ⟨[some ("Hello")], true⟩ =
      .exn (plumberAccum [some ("Hello")]) ∧
    pypdf2Body ⟨["x"], true⟩ = .exn (pypdf2Accum ["x"]) :=
  ⟨(strategies_catch_failures ⟨[some ("Hello")], true⟩ ⟨["x"], true⟩).1 rfl,
   (strategies_catch_failures ⟨[some ("Hello")], true⟩ ⟨["x"], true⟩).2.2.1 rfl⟩

/-- C5 counterexample: a pdfplumber behaviour that raises after extracting
one page makes the strategy return "Hello\n", not the empty string — so
"catches every failure ... and returns an empty string" is false as
stated. -/
theorem strategies_catch_failures_cex :
    (PlumberBehavior.mk [some ("Hello")] true).fails = true ∧
    extract_with_pdfplumber ⟨[some ("Hello")], true⟩ ≠ "" := by
  constructor
  · rfl
  · decide

/-- C8: with no PDF files found, `process_all_pdfs` logs the error event,
returns two empty mappings without raising, and emits no per-file processing
event — it performs no extraction. -/
theorem process_all_pdfs_no_input :
    process_all_pdfs [] = ([], [], [Ev.errNoPdfFound]) := rfl

/-- C3: source-type classification is a case-insensitive substring match
against the four fixed keyword sets in priority order Consulting, Academic,
Industry, Policy — the first matching set wins with no combination logic, a
filename matching no set classifies as "Unknown", and the filename
"deloitte_wef_report.pdf", which contains both a Consulting and a Policy
keyword, classifies as "Consulting". -/
theorem source_type_priority (f : String) :
    (anyKw f consultingKws = true → detect_source_type f = "Consulting") ∧
    (anyKw f consultingKws = false → anyKw f academicKws = true →
      detect_source_type f = "Academic") ∧
    (anyKw f consultingKws = false → anyKw f academicKws = false →
      anyKw f industryKws = true → detect_source_type f = "Industry") ∧
    (anyKw f consultingKws = false → anyKw f academicKws = false →
      anyKw f industryKws = false → anyKw f policyKws = true →
      detect_source_type f = "Policy") ∧
    (anyKw f consultingKws = false → anyKw f academicKws = false →
      anyKw f industryKws = false → anyKw f policyKws = false →
      detect_source_type f = "Unknown") ∧
    detect_source_type ("deloitte_wef_report.pdf") = "Consulting" ∧
    anyKw ("deloitte_wef_report.pdf") policyKws = true ∧
    anyKw ("deloitte_wef_report.pdf") consultingKws = true := by
  refine ⟨?_, ?_, ?_, ?_, ?_, by decide, by decide, by decide⟩ <;>
    (intros; simp [detect_source_type, *])

/-- C3 witness: the priority example, plus a case-insensitive uppercase
match and a no-match filename. -/
theorem source_type_priority_witness :
    detect_source_type ("deloitte_wef_report.pdf") = "Consulting" ∧
    detect_source_type ("McKinsey_AI.pdf") = "Consulting" ∧
    detect_source_type ("random_notes.pdf") = "Unknown" :=
  ⟨(source_type_priority ("deloitte_wef_report.pdf")).1 (by decide),
   (source_type_priority ("McKinsey_AI.pdf")).1 (by decide),
   (source_type_priority ("random_notes.pdf")).2.2.2.2.1 (by decide)
     (by decide) (by decide) (by decide)⟩

/-- C6 (amended): when the metadata reopen fails, `extract_metadata` catches
the failure, sets page_count to 0, computes the text-derived fields and
source_type normally — but the descriptive keys title, author, subject and
creator are absent from the returned dict, not present as empty strings. -/
theorem extract_metadata_on_failure (f : PdfInput) (text : String)
    (h : f.internal = Except.error ()) :
    extract_metadata f text =
      [("filename", MetaVal.s f.name),
       ("file_size_mb", MetaVal.q (file_size_mb f.sizeBytes)),
       ("extraction_date", MetaVal.s f.now),
       ("char_count", MetaVal.n text.length),
       ("word_count", MetaVal.n (pySplitWords text).length),
       ("line_count", MetaVal.n (pySplitLines text).length),
       ("page_count", MetaVal.n 0),
       ("source_type", MetaVal.s (detect_source_type f.name))] ∧
    alookup (extract_metadata f text) ("title") = none ∧
    alookup (extract_metadata f text) ("author") = none ∧
    alookup (extract_metadata f text) ("subject") = none ∧
    alookup (extract_metadata f text) ("creator") = none := by
  have he : extract_metadata f text =
      [("filename", MetaVal.s f.name),
       ("file_size_mb", MetaVal.q (file_size_mb f.sizeBytes)),
       ("extraction_date", MetaVal.s f.now),
       ("char_count", MetaVal.n text.length),
       ("word_count", MetaVal.n (pySplitWords text).length),
       ("line_count", MetaVal.n (pySplitLines text).length),
       ("page_count", MetaVal.n 0),
       ("source_type", MetaVal.s (detect_source_type f.name))] := by
    unfold extract_metadata
    rw [h]
    rfl
  refine ⟨he, ?_, ?_, ?_, ?_⟩ <;> rw [he] <;> rfl

/-- C6 witness: a concrete failing input still carries page_count 0 and the
normally computed word count. -/
theorem extract_metadata_on_failure_witness :
    alookup (extract_metadata exF ("hello")) ("page_count") =
      some (MetaVal.n 0) ∧
    alookup (extract_metadata exF ("hello")) ("word_count") =
      some (MetaVal.n 1) := by
  have h := extract_metadata_on_failure exF ("hello") rfl
  rw [h.1]
  constructor
  · rfl
  · rfl

/-- C6 counterexample: on a failing reopen the key "title" is missing from
the returned dict — not present as an empty string as claimed. -/
theorem extract_metadata_on_failure_cex :
    exF.internal = Except.error () ∧
    alookup (extract_metadata exF ("hello")) ("title") = none := ⟨rfl, rfl⟩

/-- The loop of `validate_jsonl` succeeds on lines that all parse, from any
start index. -/
theorem validateFrom_ok (parse : String → Except String Unit) :
    ∀ (good : List String) (i : Nat),
      good.all (fun l => (parse l).isOk) = true →
      validateFrom parse i good = .okAll := by
  intro good
  induction good with
  | nil => intro i _; rfl
  | cons l rest ih =>
    intro i h
    rw [List.all_cons, Bool.and_eq_true] at h
    cases hp : parse l with
    | ok u => simp [validateFrom, hp, ih (i + 1) h.2]
    | error e =>
      rw [hp] at h
      exact absurd h.1 (by simp [Except.isOk, Except.toBool])

/-- The loop of `validate_jsonl` stops at the first failing line, reporting
its index, regardless of what follows. -/
theorem validateFrom_fail (parse : String → Except String Unit) :
    ∀ (good : List String) (i : Nat) (bad : String) (e : String)
      (rest : List String),
      good.all (fun l => (parse l).isOk) = true →
      parse bad = .error e →
      validateFrom parse i (good ++ bad :: rest) = .failAt (i + good.length) e := by
  intro good
  induction good with
  | nil =>
    intro i bad e rest _ hb
    simp [validateFrom, hb]
  | cons l g ih =>
    intro i bad e rest h hb
    rw [List.all_cons, Bool.and_eq_true] at h
    cases hp : parse l with
    | ok u =>
      have hrec := ih (i + 1) bad e rest h.2 hb
      have hlen : i + 1 + g.length = i + (l :: g).length := by
        rw [List.length_cons]
        omega
      calc validateFrom parse i ((l :: g) ++ bad :: rest)
          = validateFrom parse (i + 1) (g ++ bad :: rest) := by
            simp [List.cons_append, validateFrom, hp]
        _ = .failAt (i + 1 + g.length) e := hrec
        _ = .failAt (i + (l :: g).length) e := by rw [hlen]
    | error e2 =>
      rw [hp] at h
      exact absurd h.1 (by simp [Except.isOk, Except.toBool])

/-- C7: the validator parses each line independently in order; if every line
parses it reports success once after the end of input, and at the first
failing line it reports that line's 1-based number with the parser's error
detail and stops — the lines after it are never examined, as the result does
not depend on them. -/
theorem validate_jsonl_spec (parse : String → Except String Unit)
    (good : List String) (bad : String) (e : String) (rest : List String)
    (h : good.all (fun l => (parse l).isOk) = true) :
    validate_jsonl parse good = .okAll ∧
    (parse bad = .error e →
      validate_jsonl parse (good ++ bad :: rest) =
        .failAt (good.length + 1) e) := by
  constructor
  · exact validateFrom_ok parse good 1 h
  · intro hb
    have hv := validateFrom_fail parse good 1 bad e rest h hb
    unfold validate_jsonl
    rw [hv]
    congr 1
    omega

/-- C7 witness: the spec's example — two valid lines, then "NOT JSON", then
another line — fails at line 3 with the decoder's message, and the two-line
valid file validates after reading all lines. -/
theorem validate_jsonl_spec_witness :
    validate_jsonl parseW ["ok1", "ok2"] = .okAll ∧
    validate_jsonl parseW (["ok1", "ok2"] ++ "NOT JSON" :: ["ok3"]) =
      .failAt 3 "Expecting value" := by
  have h := validate_jsonl_spec parseW ["ok1", "ok2"] ("NOT JSON")
    ("Expecting value") ["ok3"] (by decide)
  exact ⟨h.1, h.2 (by rfl)⟩

/-- Characterization of the `process_all_pdfs` loop: the two mappings are
exactly the kept files, in order, paired with their cleaned text and their
metadata. -/
theorem processLoop_spec (files : List PdfInput) :
    (processLoop files).1 = (files.filter keepFile).map
      (fun f => (stemOf f.name, extract_text f.file ("pdfplumber"))) ∧
    (processLoop files).2.1 = (files.filter keepFile).map
      (fun f => (stemOf f.name,
        extract_metadata f (extract_text f.file ("pdfplumber")))) := by
  induction files with
  | nil => exact ⟨rfl, rfl⟩
  | cons f rest ih =>
    have hstep : processLoop (f :: rest) =
        (if pyStripStr (extract_text f.file ("pdfplumber")) = "" then
          ((processLoop rest).1, (processLoop rest).2.1,
            Ev.processing f.name :: Ev.warnNoText f.name ::
              (processLoop rest).2.2)
        else
          ((stemOf f.name, extract_text f.file ("pdfplumber")) ::
             (processLoop rest).1,
           (stemOf f.name,
             extract_metadata f (extract_text f.file ("pdfplumber"))) ::
             (processLoop rest).2.1,
           Ev.processing f.name :: Ev.extractedOk f.name ::
             (processLoop rest).2.2)) := rfl
    by_cases h : pyStripStr (extract_text f.file ("pdfplumber")) = ""
    · have hk : keepFile f = false := by
        simp [keepFile, h]
      constructor
      · rw [hstep, if_pos h, List.filter_cons, hk]
        simpa using ih.1
      · rw [hstep, if_pos h, List.filter_cons, hk]
        simpa using ih.2
    · have hk : keepFile f = true := by
        simp [keepFile, h]
      constructor
      · rw [hstep, if_neg h, List.filter_cons, hk]
        simpa using congrArg (List.cons
          (stemOf f.name, extract_text f.file ("pdfplumber"))) ih.1
      · rw [hstep, if_neg h, List.filter_cons, hk]
        simpa using congrArg (List.cons
          (stemOf f.name,
            extract_metadata f (extract_text f.file ("pdfplumber")))) ih.2

/-- C1: in every run the two returned mappings are the kept files in
directory order — so their key lists are identical, every stored text is
non-empty after stripping, and a file whose cleaned extraction strips to
empty contributes an entry to neither mapping. -/
theorem process_all_pdfs_parallel (files : List PdfInput) :
    (process_all_pdfs files).1 = (files.filter keepFile).map
      (fun f => (stemOf f.name, extract_text f.file ("pdfplumber"))) ∧
    (process_all_pdfs files).2.1 = (files.filter keepFile).map
      (fun f => (stemOf f.name,
        extract_metadata f (extract_text f.file ("pdfplumber")))) ∧
    (process_all_pdfs files).1.map Prod.fst =
      (process_all_pdfs files).2.1.map Prod.fst ∧
    ((process_all_pdfs files).1.all
      fun p => !(pyStripStr p.2 == "")) = true := by
  have hmain : (process_all_pdfs files).1 = (files.filter keepFile).map
        (fun f => (stemOf f.name, extract_text f.file ("pdfplumber"))) ∧
      (process_all_pdfs files).2.1 = (files.filter keepFile).map
        (fun f => (stemOf f.name,
          extract_metadata f (extract_text f.file ("pdfplumber")))) := by
    cases files with
    | nil => exact ⟨rfl, rfl⟩
    | cons f rest =>
      rw [show process_all_pdfs (f :: rest) = processLoop (f :: rest) from rfl]
      exact processLoop_spec (f :: rest)
  refine ⟨hmain.1, hmain.2, ?_, ?_⟩
  · rw [hmain.1, hmain.2, List.map_map, List.map_map]
    rfl
  · rw [hmain.1, List.all_eq_true]
    intro p hp
    rw [List.mem_map] at hp
    obtain ⟨f, hf, hpf⟩ := hp
    have hkeep : keepFile f = true := (List.mem_filter.mp hf).2
    rw [← hpf]
    exact hkeep

/-! ### Lemmas for the report's sorted histogram -/

theorem listLe_total (x : List Char) : ∀ y : List Char,
    listLe x y = true ∨ listLe y x = true := by
  induction x with
  | nil => intro y; exact Or.inl rfl
  | cons a as ih =>
    intro y
    cases y with
    | nil => exact Or.inr rfl
    | cons b bs =>
      by_cases hab : a.toNat = b.toNat
      · have hba : b.toNat = a.toNat := hab.symm
        rcases ih bs with h | h
        · exact Or.inl (by simp [listLe, hab, h])
        · exact Or.inr (by simp [listLe, hba, h])
      · have hba : ¬(b.toNat = a.toNat) := fun hh => hab hh.symm
        rcases Nat.lt_or_ge a.toNat b.toNat with h | h
        · exact Or.inl (by simp [listLe, hab, h])
        · have h2 : b.toNat < a.toNat := Nat.lt_of_le_of_ne h hba
          exact Or.inr (by simp [listLe, hba, h2])

theorem strLeB_total (a b : String) : strLeB a b = true ∨ strLeB b a = true :=
  listLe_total a.toList b.toList

/-- Head-dominance used by the sortedness predicate. -/
def headLeB (x : String × Nat) : List (String × Nat) → Bool
  | [] => true
  | y :: _ => strLeB x.1 y.1

theorem sortedByKey_cons (y : String × Nat) (l : List (String × Nat)) :
    sortedByKey (y :: l) = (headLeB y l && sortedByKey l) := by
  cases l <;> simp [sortedByKey, headLeB]

theorem insSorted_sorted (x : String × Nat) (l : List (String × Nat))
    (h : sortedByKey l = true) : sortedByKey (insSorted x l) = true := by
  induction l with
  | nil => rfl
  | cons y rest ih =>
    rw [sortedByKey_cons, Bool.and_eq_true] at h
    by_cases hxy : strLeB x.1 y.1 = true
    · rw [insSorted, if_pos hxy, sortedByKey_cons, sortedByKey_cons]
      have hx : headLeB x (y :: rest) = strLeB x.1 y.1 := rfl
      rw [hx, hxy, h.1, h.2]
      rfl
    · have hyx : strLeB y.1 x.1 = true := by
        rcases strLeB_total x.1 y.1 with hh | hh
        · exact absurd hh hxy
        · exact hh
      rw [insSorted, if_neg hxy, sortedByKey_cons]
      rw [Bool.and_eq_true]
      constructor
      · cases rest with
        | nil => simpa [insSorted, headLeB] using hyx
        | cons z t =>
          by_cases hxz : strLeB x.1 z.1 = true
          · simpa [insSorted, hxz, headLeB] using hyx
          · have hhy : headLeB y (z :: t) = true := h.1
            simpa [insSorted, hxz, headLeB] using hhy
      · exact ih h.2

theorem sortPairs_sorted (l : List (String × Nat)) :
    sortedByKey (sortPairs l) = true := by
  induction l with
  | nil => rfl
  | cons p t ih => exact insSorted_sorted p (sortPairs t) ih

/-- C9: the report's word and page totals are the sums of word_count and
page_count over the metadata mapping; the average words per document is 0
when the document count (the size of the text mapping) is 0 and the floor
division of total words by the document count otherwise; and the source-type
histogram is rendered sorted by type name. -/
theorem report_totals (texts : List (String × String))
    (metas : List (String × Metadata)) :
    (generate_extraction_report texts metas).total_words =
      (metas.map (fun p => getNat p.2 ("word_count"))).sum ∧
    (generate_extraction_report texts metas).total_pages =
      (metas.map (fun p => getNat p.2 ("page_count"))).sum ∧
    (texts.length = 0 → (generate_extraction_report texts metas).avg_words = 0) ∧
    (0 < texts.length → (generate_extraction_report texts metas).avg_words =
      (metas.map (fun p => getNat p.2 ("word_count"))).sum / texts.length) ∧
    sortedByKey (generate_extraction_report texts metas).histogram = true := by
  refine ⟨rfl, rfl, ?_, ?_, ?_⟩
  · intro h
    simp [generate_extraction_report, h]
  · intro h
    simp [generate_extraction_report, h]
  · exact sortPairs_sorted _

/-- C9 witness: three documents with word counts 100, 200 and 300 give
average 600 / 3 = 200 by the theorem's floor-division clause. -/
theorem report_totals_witness :
    (generate_extraction_report wTexts wMetas).avg_words =
      (wMetas.map (fun p => getNat p.2 ("word_count"))).sum / wTexts.length ∧
    (generate_extraction_report wTexts wMetas).avg_words = 200 := by
  have h := (report_totals wTexts wMetas).2.2.2.1 (by decide)
  exact ⟨h, by rw [h]; decide⟩

end PdfPipeline
